import Mathlib

/-!
Verification development for the `bc_io` hash-linked block store
(`src/lib.rs`: `File`, `Reader`, `Writer`; `src/main.rs`: the 64-byte
payload codec `Block`).

Files are modelled as lists of bytes (`List Nat`, each entry `< 256`);
machine integers are `Nat`/`Int` with explicit bounds (`u32Max`,
`u64Max`); fallible operations return `Except Error _`.  Rust code
paths that can panic (integer `%` by zero, out-of-bounds slicing) are
modelled by the dedicated outcome type `PRes` whose `fatal`
constructor marks a panic.

The digest engine lives in the external `bc_hash` crate, which is not
part of this repository's sources; it is modelled from the spec
(standard SHA-256, spec section 4.1) and checked against the published
test vectors for the empty message and for "abc".
-/

set_option maxRecDepth 40000

deriving instance DecidableEq for Except

namespace BC

/-- Size in bytes of a SHA-256 digest (`bc_hash::sha256::DIGEST_SIZE`). -/
def DIGEST_SIZE : Nat := 32

/-- Largest value of a Rust `u32`. -/
def u32Max : Nat := 4294967295

/-- Largest value of a Rust `u64` (and of `usize` on a 64-bit target). -/
def u64Max : Nat := 18446744073709551615

/-- Little-endian encoding of `v` into `n` bytes (Rust `to_le_bytes`). -/
def toLe : Nat → Nat → List Nat
  | 0, _ => []
  | n + 1, v => v % 256 :: toLe n (v / 256)

/-- Little-endian decoding of a byte list (Rust `from_le_bytes`). -/
def fromLe : List Nat → Nat
  | [] => 0
  | b :: bs => b + 256 * fromLe bs

/-- Big-endian encoding of `v` into `n` bytes. -/
def toBe : Nat → Nat → List Nat
  | 0, _ => []
  | n + 1, v => toBe n (v / 256) ++ [v % 256]

/-! ## SHA-256 digest engine

Modelled from the spec: the `bc_hash` crate (its `sha256::digest`
function, `Digest` values and their byte serialization) is not under
`src/`; the spec (section 4.1) describes it as standard SHA-256, so it
is reproduced here bit-exactly.  A `Digest` value is modelled as its
32-byte big-endian serialization. -/

/-- Right-rotate of a 32-bit word by `n` (input assumed `< 2^32`). -/
def rotr (n x : Nat) : Nat := (x >>> n) ||| ((x <<< (32 - n)) % 4294967296)

/-- SHA-256 small sigma 0: message-schedule mixing function. -/
def sig0 (x : Nat) : Nat := rotr 7 x ^^^ rotr 18 x ^^^ (x >>> 3)

/-- SHA-256 small sigma 1: message-schedule mixing function. -/
def sig1 (x : Nat) : Nat := rotr 17 x ^^^ rotr 19 x ^^^ (x >>> 10)

/-- SHA-256 big sigma 0: compression mixing function. -/
def bsig0 (x : Nat) : Nat := rotr 2 x ^^^ rotr 13 x ^^^ rotr 22 x

/-- SHA-256 big sigma 1: compression mixing function. -/
def bsig1 (x : Nat) : Nat := rotr 6 x ^^^ rotr 11 x ^^^ rotr 25 x

/-- SHA-256 choice function. -/
def chf (e f g : Nat) : Nat := (e &&& f) ^^^ ((4294967295 ^^^ e) &&& g)

/-- SHA-256 majority function. -/
def majf (a b c : Nat) : Nat := (a &&& b) ^^^ (a &&& c) ^^^ (b &&& c)

/-- The 64 SHA-256 round constants (first 32 bits of the fractional parts
of the cube roots of the first 64 primes), here in decimal. -/
def K : List Nat :=
  [1116352408, 1899447441, 3049323471, 3921009573, 961987163,
   1508970993, 2453635748, 2870763221, 3624381080, 310598401,
   607225278, 1426881987, 1925078388, 2162078206, 2614888103,
   3248222580, 3835390401, 4022224774, 264347078, 604807628,
   770255983, 1249150122, 1555081692, 1996064986, 2554220882,
   2821834349, 2952996808, 3210313671, 3336571891, 3584528711,
   113926993, 338241895, 666307205, 773529912, 1294757372,
   1396182291, 1695183700, 1986661051, 2177026350, 2456956037,
   2730485921, 2820302411, 3259730800, 3345764771, 3516065817,
   3600352804, 4094571909, 275423344, 430227734, 506948616,
   659060556, 883997877, 958139571, 1322822218, 1537002063,
   1747873779, 1955562222, 2024104815, 2227730452, 2361852424,
   2428436474, 2756734187, 3204031479, 3329325298]

/-- The eight 32-bit working registers of the SHA-256 state. -/
structure Regs where
  a : Nat
  b : Nat
  c : Nat
  d : Nat
  e : Nat
  f : Nat
  g : Nat
  h : Nat
deriving DecidableEq, Repr

/-- The SHA-256 initialization constants (first 32 bits of the fractional
parts of the square roots of the first 8 primes). -/
def H0 : Regs :=
  ⟨1779033703, 3144134277, 1013904242, 2773480762,
   1359893119, 2600822924, 528734635, 1541459225⟩

/-- One SHA-256 compression round. -/
def round (st : Regs) (k w : Nat) : Regs :=
  let t1 := (st.h + bsig1 st.e + chf st.e st.f st.g + k + w) % 4294967296
  let t2 := (bsig0 st.a + majf st.a st.b st.c) % 4294967296
  ⟨(t1 + t2) % 4294967296, st.a, st.b, st.c,
   (st.d + t1) % 4294967296, st.e, st.f, st.g⟩

/-- Load consecutive 4-byte groups as big-endian 32-bit words. -/
def toWordsBE : List Nat → List Nat
  | b0 :: b1 :: b2 :: b3 :: rest =>
      (b0 * 16777216 + b1 * 65536 + b2 * 256 + b3) :: toWordsBE rest
  | _ => []

/-- Append the next word of the SHA-256 message schedule. -/
def schedStep (ws : List Nat) : List Nat :=
  let n := ws.length
  ws ++ [(ws.getD (n - 16) 0 + sig0 (ws.getD (n - 15) 0) +
          ws.getD (n - 7) 0 + sig1 (ws.getD (n - 2) 0)) % 4294967296]

/-- Extend the 16-word message schedule by `n` further words. -/
def extendW : Nat → List Nat → List Nat
  | 0, ws => ws
  | n + 1, ws => extendW n (schedStep ws)

/-- Compress one 64-byte chunk into the running state. -/
def processChunk (hs : Regs) (chunk : List Nat) : Regs :=
  let ws := extendW 48 (toWordsBE chunk)
  let st := (K.zip ws).foldl (fun st kw => round st kw.1 kw.2) hs
  ⟨(hs.a + st.a) % 4294967296, (hs.b + st.b) % 4294967296,
   (hs.c + st.c) % 4294967296, (hs.d + st.d) % 4294967296,
   (hs.e + st.e) % 4294967296, (hs.f + st.f) % 4294967296,
   (hs.g + st.g) % 4294967296, (hs.h + st.h) % 4294967296⟩

/-- Process `n` consecutive 64-byte chunks of a padded message. -/
def processN : Nat → Regs → List Nat → Regs
  | 0, hs, _ => hs
  | n + 1, hs, msg => processN n (processChunk hs (msg.take 64)) (msg.drop 64)

/-- SHA-256 padding: a `0x80` byte, zeros to 8 bytes short of a multiple
of 64, then the bit length as a big-endian 64-bit integer. -/
def padMsg (msg : List Nat) : List Nat :=
  msg ++ 128 :: (List.replicate ((64 - (msg.length + 9) % 64) % 64) 0 ++
    toBe 8 (8 * msg.length))

/-- Big-endian byte serialization of one 32-bit word. -/
def bytes4BE (w : Nat) : List Nat :=
  [w / 16777216 % 256, w / 65536 % 256, w / 256 % 256, w % 256]

/-- Byte serialization of the 8-word SHA-256 state. -/
def regsBytes (hs : Regs) : List Nat :=
  bytes4BE hs.a ++ bytes4BE hs.b ++ bytes4BE hs.c ++ bytes4BE hs.d ++
  bytes4BE hs.e ++ bytes4BE hs.f ++ bytes4BE hs.g ++ bytes4BE hs.h

/-- SHA-256 of a byte buffer, as its 32-byte digest
(`bc_hash::sha256::Digest::from(&[u8])` followed by serialization). -/
def sha256 (msg : List Nat) : List Nat :=
  let p := padMsg msg
  regsBytes (processN (p.length / 64) H0 p)

/-- The serialized initial digest constant (spec section 3: the standard
8-word initialization constant set, the "genesis predecessor" placeholder). -/
def initialDigestBytes : List Nat := regsBytes H0

example : (sha256 []).length = 32 := by decide

example :
    sha256 [] =
      [227, 176, 196, 66, 152, 252, 28, 20, 154, 251, 244, 200,
       153, 111, 185, 36, 39, 174, 65, 228, 100, 155, 147, 76,
       164, 149, 153, 27, 120, 82, 184, 85] := by decide

example :
    sha256 [97, 98, 99] =
      [186, 120, 22, 191, 143, 1, 207, 234, 65, 65, 64, 222,
       93, 174, 34, 35, 176, 3, 97, 163, 150, 23, 122, 156,
       180, 16, 255, 97, 242, 0, 21, 173] := by decide

/-! ## Error model (`src/lib.rs`, `enum Error`)

`std::io::ErrorKind` values reachable in the modelled paths are
represented by `IOKind`: `alreadyExists` (from `create_new(true)` on an
existing path), `unexpectedEof` (from a `read_exact` that hits
end-of-file), `invalidInput` (from a seek to a negative position). -/

/-- The `std::io::ErrorKind` values reachable in the modelled code paths. -/
inductive IOKind where
  | alreadyExists : IOKind
  | unexpectedEof : IOKind
  | invalidInput : IOKind
deriving DecidableEq, Repr

/-- `bc_io::io::Error` (`src/lib.rs` lines 31-46). -/
inductive Error where
  | BadStreamPosition : Nat → Error
  | BlockNumDoesNotExist : Error
  | InvalidSliceLength : Error
  | ZeroBlockSize : Error
  | BlockSizeTooBig : Error
  | PathAlreadyExists : Error
  | PathIsNotAFile : Error
  | FileIsEmpty : Error
  | IntegerOverflow : Error
  | InvalidFileSize : Error
  | InvalidBlockHash : Nat → Error
  | IOError : IOKind → Error
deriving DecidableEq, Repr

/-- Outcome of a Rust computation that may panic: `fatal` marks a panic
(integer remainder by zero, out-of-bounds slice index), `err`/`ok` the
two sides of the returned `Result`. -/
inductive PRes (α : Type) where
  | fatal : PRes α
  | err : Error → PRes α
  | ok : α → PRes α
deriving DecidableEq, Repr

/-! ## Block Store (`struct File`, `src/lib.rs` lines 99-191)

A `File` is its byte contents plus the cached `block_size` field.  The
path-related conditions of `create_new`/`open_existing` are passed in
as booleans (`pathExists`, `pathIsDir`); the `Serialize` trait object
is passed as a function from the contents of the byte slice handed to
`T::serialize` to the contents of that slice afterwards (in Rust the
serializer mutates the slice in place, so its output has the same
length as its input; theorems carry that as a hypothesis). -/

/-- `bc_io::io::File`: the on-disk bytes and the block size. -/
structure File where
  contents : List Nat
  block_size : Nat
deriving DecidableEq, Repr

/-- A `Serialize` implementor, as the in-place transformation it applies
to the byte slice it receives. -/
def Serializer : Type := List Nat → Except Error (List Nat)

/-- `File::create_new` (`src/lib.rs` lines 107-129): rejects oversized and
zero block sizes, then creates the file (failing with the underlying
`AlreadyExists` I/O error if the path exists), writes one `block_size =
size + DIGEST_SIZE` byte block whose first four bytes are the block size
little-endian and whose payload section `[DIGEST_SIZE..block_size]` is
filled by the caller's serializer, and flushes. -/
def create_new (pathExists : Bool) (ser : Serializer) (size : Nat) :
    Except Error File :=
  if u32Max - DIGEST_SIZE < size then .error .BlockSizeTooBig
  else if size = 0 then .error .ZeroBlockSize
  else if pathExists then .error (.IOError .alreadyExists)
  else
    let block_size := size + DIGEST_SIZE
    let buf := toLe 4 block_size ++ List.replicate (block_size - 4) 0
    match ser (buf.drop DIGEST_SIZE) with
    | .error e => .error e
    | .ok payload => .ok ⟨buf.take DIGEST_SIZE ++ payload, block_size⟩

/-- `File::validate_size` (`src/lib.rs` lines 159-168).  When the file is
nonempty and `block_size = 0`, the Rust expression `size % block_size`
panics; that outcome is `fatal`. -/
def validate_size (size block_size : Nat) : PRes Unit :=
  if size = 0 then .err .FileIsEmpty
  else if block_size = 0 then .fatal
  else if size % block_size ≠ 0 then .err .InvalidFileSize
  else .ok ()

/-- `File::open_existing` (`src/lib.rs` lines 132-150): note that a
missing path is reported with `Error::PathAlreadyExists` (sic), a
directory with `PathIsNotAFile`; the block size is read from the first
four bytes (little-endian), so a file shorter than 4 bytes fails the
`read_exact` with `UnexpectedEof`. -/
def open_existing (pathExists pathIsDir : Bool) (contents : List Nat) :
    PRes File :=
  if !pathExists then .err .PathAlreadyExists
  else if pathIsDir then .err .PathIsNotAFile
  else if contents.length < 4 then .err (.IOError .unexpectedEof)
  else
    let block_size := fromLe (contents.take 4)
    match validate_size contents.length block_size with
    | .fatal => .fatal
    | .err e => .err e
    | .ok _ => .ok ⟨contents, block_size⟩

/-- `File::size` (`src/lib.rs` lines 176-178): the file length in bytes. -/
def File.size (f : File) : Nat := f.contents.length

/-- `File.is_valid_size` (`src/lib.rs` lines 171-173). -/
def File.is_valid_size (f : File) : PRes Unit :=
  validate_size f.contents.length f.block_size

/-- `File::block_count` (`src/lib.rs` lines 181-190): `FileIsEmpty` on an
empty file, `InvalidFileSize` when the length is not a multiple of the
block size, otherwise the number of blocks.  As in `validate_size`, the
`%` panics when the file is nonempty and `block_size = 0`. -/
def File.block_count (f : File) : PRes Nat :=
  if f.contents.length = 0 then .err .FileIsEmpty
  else if f.block_size = 0 then .fatal
  else if f.contents.length % f.block_size ≠ 0 then .err .InvalidFileSize
  else .ok (f.contents.length / f.block_size)

/-! ## Reader (`struct Reader`, `src/lib.rs` lines 240-385)

The `BufReader` cursor is the `pos` field.  `readExact` models
`read_exact` on the underlying file: it fills the whole buffer from the
current position or fails with `UnexpectedEof`. -/

/-- `std::io::Read::read_exact` from position `pos` for `n` bytes:
the bytes read and the new position, or `UnexpectedEof`. -/
def readExact (contents : List Nat) (pos n : Nat) :
    Except Error (List Nat × Nat) :=
  if pos + n ≤ contents.length then .ok ((contents.drop pos).take n, pos + n)
  else .error (.IOError .unexpectedEof)

/-- `bc_io::io::Reader`: a cursor over an open `File`. -/
structure Reader where
  file : File
  pos : Nat
deriving DecidableEq, Repr

/-- `Reader::new` (`src/lib.rs` lines 248-252); the underlying cursor of a
freshly opened file is at the start. -/
def Reader.new (f : File) : Reader := ⟨f, 0⟩

/-- `Reader::block_size` (`src/lib.rs` lines 256-258). -/
def Reader.block_size (r : Reader) : Nat := r.file.block_size

/-- `Reader::block_count` (`src/lib.rs` lines 262-264). -/
def Reader.block_count (r : Reader) : PRes Nat := r.file.block_count

/-- `Reader::seek` (`src/lib.rs` lines 291-296): the byte offset is
`index * block_size` computed with `u64::checked_mul`; a product beyond
`u64::MAX` fails with `IntegerOverflow` instead of wrapping.  Returns
the new stream position alongside the updated reader. -/
def Reader.seek (r : Reader) (index : Nat) : Except Error (Nat × Reader) :=
  if index * r.block_size ≤ u64Max then
    .ok (index * r.block_size, ⟨r.file, index * r.block_size⟩)
  else .error .IntegerOverflow

/-- `Reader::read_block` (`src/lib.rs` lines 301-307): the caller's buffer
length must equal the block size; then one block is read at the cursor. -/
def Reader.read_block (r : Reader) (bufLen : Nat) :
    Except Error (List Nat × Reader) :=
  if bufLen ≠ r.block_size then .error .InvalidSliceLength
  else
    match readExact r.file.contents r.pos r.block_size with
    | .error e => .error e
    | .ok (bytes, pos) => .ok (bytes, ⟨r.file, pos⟩)

/-- `Reader::read_block_at` (`src/lib.rs` lines 312-315): seek then
`read_block`. -/
def Reader.read_block_at (r : Reader) (index : Nat) (bufLen : Nat) :
    Except Error (List Nat × Reader) :=
  match r.seek index with
  | .error e => .error e
  | .ok (_, r1) => r1.read_block bufLen

/-- The serialized bytes of block `i` of a store: the `bs`-byte slice at
offset `i * bs`. -/
def blockAt (contents : List Nat) (bs i : Nat) : List Nat :=
  (contents.drop (i * bs)).take bs

/-- The chain-linkage invariant at block `i`: the previous-digest field
stored in block `i` (its first `DIGEST_SIZE` bytes) equals the digest of
the full serialized bytes of block `i - 1`. -/
def chainOk (contents : List Nat) (bs i : Nat) : Prop :=
  (blockAt contents bs i).take DIGEST_SIZE = sha256 (blockAt contents bs (i - 1))

instance (contents : List Nat) (bs i : Nat) : Decidable (chainOk contents bs i) := by
  unfold chainOk
  infer_instance

/-- `Reader::validate_block_at` (`src/lib.rs` lines 341-363): bounds check
against `block_count`, index 0 trivially valid, otherwise hash block
`index - 1` and compare with the previous-digest field of block `index`
(read sequentially right after it).  Slicing `buf[0..DIGEST_SIZE]`
panics when the block size is below `DIGEST_SIZE` (`fatal`).  The final
cursor position is not observed by callers and is dropped. -/
def Reader.validate_block_at (r : Reader) (index : Nat) : PRes Unit :=
  match r.file.block_count with
  | .fatal => .fatal
  | .err e => .err e
  | .ok count =>
    if count ≤ index then .err .BlockNumDoesNotExist
    else if index = 0 then .ok ()
    else if u64Max < (index - 1) * r.block_size then .err .IntegerOverflow
    else
      match readExact r.file.contents ((index - 1) * r.block_size) r.block_size with
      | .error e => .err e
      | .ok (buf1, pos1) =>
        match readExact r.file.contents pos1 r.block_size with
        | .error e => .err e
        | .ok (buf2, _) =>
          if buf2.length < DIGEST_SIZE then .fatal
          else if sha256 buf1 ≠ buf2.take DIGEST_SIZE then
            .err (.InvalidBlockHash index)
          else .ok ()

/-- The loop of `Reader::validate_all_blocks` (`src/lib.rs` lines
375-382): `buf` holds the previously read block, `pos` the cursor, `b`
the index of the block about to be read, `r` the remaining iteration
count. -/
def vabLoop (contents : List Nat) (bs : Nat) :
    List Nat → Nat → Nat → Nat → PRes Unit
  | _, _, _, 0 => .ok ()
  | buf, pos, b, r + 1 =>
    match readExact contents pos bs with
    | .error e => .err e
    | .ok (buf2, pos2) =>
      if buf2.length < DIGEST_SIZE then .fatal
      else if buf2.take DIGEST_SIZE ≠ sha256 buf then
        .err (.InvalidBlockHash b)
      else vabLoop contents bs buf2 pos2 (b + 1) r

/-- `Reader::validate_all_blocks` (`src/lib.rs` lines 369-384): rewind,
read the genesis block, then walk every adjacent pair comparing the
stored previous-digest field of block `b` with the recomputed digest of
block `b - 1`, returning the first mismatch.  The final cursor position
is not observed by callers and is dropped. -/
def Reader.validate_all_blocks (r : Reader) : PRes Unit :=
  match r.file.block_count with
  | .fatal => .fatal
  | .err e => .err e
  | .ok count =>
    match readExact r.file.contents 0 r.block_size with
    | .error e => .err e
    | .ok (buf, pos) => vabLoop r.file.contents r.block_size buf pos 1 (count - 1)

/-! ## Writer (`struct Writer`, `src/lib.rs` lines 387-459) -/

/-- `bc_io::io::Writer`: the underlying file, the cached digest of the
last block's full serialized bytes (`last_hash`, as its 32-byte
serialization), and the scratch block buffer. -/
structure Writer where
  file : File
  last_hash : List Nat
  buf : List Nat
deriving DecidableEq, Repr

/-- `Writer::new` (`src/lib.rs` lines 397-407): seek to
`End(-block_size)` (a negative final position is an `InvalidInput` I/O
error), read the last block currently in the file, and cache the digest
of its full serialized bytes. -/
def Writer.new (f : File) : Except Error Writer :=
  if f.contents.length < f.block_size then .error (.IOError .invalidInput)
  else
    match readExact f.contents (f.contents.length - f.block_size) f.block_size with
    | .error e => .error e
    | .ok (buf, _) => .ok ⟨f, sha256 buf, buf⟩

/-- `Writer::append` (`src/lib.rs` lines 445-458): the payload length
must be `block_size - DIGEST_SIZE`; the cached last-hash is stamped
into the first `DIGEST_SIZE` bytes of the block buffer, the payload
into the rest; the block is written at end-of-file and flushed, and the
cached last-hash is replaced by the digest of the bytes just written. -/
def Writer.append (w : Writer) (data : List Nat) : Except Error Writer :=
  if data.length + DIGEST_SIZE ≠ w.file.block_size then
    .error .InvalidSliceLength
  else
    let blk := w.last_hash ++ data
    .ok ⟨⟨w.file.contents ++ blk, w.file.block_size⟩, sha256 blk, blk⟩

/-- A sequence of `Writer::append` calls, stopping at the first failure
(as the `for` loop in `src/main.rs` lines 131-134 does). -/
def appendList (w : Writer) : List (List Nat) → Except Error Writer
  | [] => .ok w
  | d :: ds =>
    match w.append d with
    | .error e => .error e
    | .ok w1 => appendList w1 ds

/-! ## Payload codec (`struct Block`, `src/main.rs` lines 30-91)

The 64-byte payload layout: timestamp at 0, user id at 8, version at
16, payload size at 24, content digest (`merkle_root`) at 32, all
integers little-endian.  `merkle_root` models a `bc_hash` `Digest`,
whose representation invariant is a length of exactly 32 bytes. -/

/-- `BLOCK_SIZE` of `src/main.rs` line 35: the serialized payload width. -/
def PAYLOAD_SIZE : Nat := 64

/-- The `Block` of `src/main.rs` lines 37-44. -/
structure Block where
  timestamp : Int
  user_id : Nat
  version : Nat
  data_size : Nat
  merkle_root : List Nat
deriving DecidableEq, Repr

/-- Two's-complement value of an `i64` as the `u64` with the same bytes
(`i64::to_le_bytes` reads these bytes little-endian). -/
def i64Bits (t : Int) : Nat := (t % 18446744073709551616).toNat

/-- Decode a `u64` bit pattern as an `i64` (`i64::from_le_bytes`). -/
def i64OfBits (n : Nat) : Int :=
  if n < 9223372036854775808 then (n : Int) else (n : Int) - 18446744073709551616

/-- `Block::serialize` (`src/main.rs` lines 46-60): requires a 64-byte
buffer and fills all of it, fields little-endian in layout order. -/
def Block.serialize (blk : Block) (buf : List Nat) : Except Error (List Nat) :=
  if buf.length ≠ PAYLOAD_SIZE then .error .InvalidSliceLength
  else
    .ok (toLe 8 (i64Bits blk.timestamp) ++ toLe 8 blk.user_id ++
         toLe 8 blk.version ++ toLe 8 blk.data_size ++ blk.merkle_root)

/-- `Block::deserialize` (`src/main.rs` lines 62-79): requires a 64-byte
buffer and reads the fields back, little-endian. -/
def Block.deserialize (buf : List Nat) : Except Error Block :=
  if buf.length ≠ PAYLOAD_SIZE then .error .InvalidSliceLength
  else
    .ok ⟨i64OfBits (fromLe (buf.take 8)),
         fromLe ((buf.drop 8).take 8),
         fromLe ((buf.drop 16).take 8),
         fromLe ((buf.drop 24).take 8),
         (buf.drop 32).take 32⟩

/-! ## Concrete stores used by witnesses and counterexamples

A minimal store with `size = 1` (block size 33): genesis written by
`create_new` with payload byte `7`, then one appended block with
payload byte `5`.  And a 96-byte-block store built through the
`src/main.rs` `Block` codec. -/

/-- Genesis block of the 33-byte-block example store, as written by
`create_new false (fun _ => .ok [7]) 1`. -/
def exB0 : List Nat := toLe 4 33 ++ List.replicate 28 0 ++ [7]

/-- The example store right after creation. -/
def exF : File := ⟨exB0, 33⟩

/-- The writer `Writer::new` yields on `exF`. -/
def exW : Writer := ⟨exF, sha256 exB0, exB0⟩

/-- The block appended to `exF` with payload byte `5`. -/
def exB1 : List Nat := sha256 exB0 ++ [5]

/-- The writer state after appending `exB1`. -/
def exW1 : Writer := ⟨⟨exB0 ++ exB1, 33⟩, sha256 exB1, exB1⟩

/-- The example store with its two chained blocks. -/
def exF2 : File := ⟨exB0 ++ exB1, 33⟩

/-- Genesis block of the 96-byte-block example store: block size header,
zeros, then the serialized `Block` with timestamp 0, user 123,
version 1, payload size 11, all-zero content digest. -/
def exG96 : List Nat :=
  toLe 4 96 ++ List.replicate 28 0 ++
    (toLe 8 0 ++ toLe 8 123 ++ toLe 8 1 ++ toLe 8 11 ++ List.replicate 32 0)

/-- The 96-byte-block example store right after creation. -/
def exF96 : File := ⟨exG96, 96⟩

/-- The writer `Writer::new` yields on `exF96`. -/
def exW96 : Writer := ⟨exF96, sha256 exG96, exG96⟩

/-- Serialized payload of the second 96-byte block: timestamp 0, user
124, version 1, payload size 4, all-ones content digest. -/
def exData1 : List Nat :=
  toLe 8 0 ++ toLe 8 124 ++ toLe 8 1 ++ toLe 8 4 ++ List.replicate 32 1

/-- The second on-disk 96-byte block: cached last-hash then payload. -/
def exBlk1 : List Nat := sha256 exG96 ++ exData1

/-- The writer state after appending `exBlk1`. -/
def exW96a : Writer := ⟨⟨exG96 ++ exBlk1, 96⟩, sha256 exBlk1, exBlk1⟩

/-- A concrete `Block` with a negative timestamp, for the round-trip
witness. -/
def exBlock : Block := ⟨-5, 1, 2, 3, List.replicate 32 9⟩

/-- The serialization of `exBlock`. -/
def exBlockBytes : List Nat :=
  toLe 8 (i64Bits (-5)) ++ toLe 8 1 ++ toLe 8 2 ++ toLe 8 3 ++
    List.replicate 32 9

example : create_new false (fun _ => .ok [7]) 1 = .ok exF := by decide
example : Writer.new exF = .ok exW := by decide
example : appendList exW [[5]] = .ok exW1 := by decide
example : Reader.validate_all_blocks (Reader.new exF2) = .ok () := by decide
example : Reader.validate_block_at (Reader.new exF2) 1 = .ok () := by decide
example : Reader.read_block_at (Reader.new exF2) 1 33 = .ok (exB1, ⟨exF2, 66⟩) := by decide
example : Writer.new exF96 = .ok exW96 := by decide
example : exW96.append exData1 = .ok exW96a := by decide
example : open_existing true false exB0 = .ok exF := by decide

/-! ## Helper lemmas -/

theorem toLe_length (n v : Nat) : (toLe n v).length = n := by
  induction n generalizing v with
  | zero => rfl
  | succ n ih => simp [toLe, ih]

theorem fromLe_toLe (n v : Nat) : fromLe (toLe n v) = v % 256 ^ n := by
  induction n generalizing v with
  | zero => simp [toLe, fromLe, Nat.mod_one]
  | succ n ih =>
    rw [toLe, fromLe, ih, pow_succ']
    exact (Nat.mod_mul).symm

theorem fromLe_toLe_of_lt (n v : Nat) (h : v < 256 ^ n) :
    fromLe (toLe n v) = v := by
  rw [fromLe_toLe, Nat.mod_eq_of_lt h]

theorem sha256_length (m : List Nat) : (sha256 m).length = 32 := by
  simp [sha256, regsBytes, bytes4BE]

theorem blockAt_length (c : List Nat) (bs i : Nat) (h : i * bs + bs ≤ c.length) :
    (blockAt c bs i).length = bs := by
  simp only [blockAt, List.length_take, List.length_drop]
  omega

theorem blockAt_append (c t : List Nat) (bs i : Nat) (h : i * bs + bs ≤ c.length) :
    blockAt (c ++ t) bs i = blockAt c bs i := by
  unfold blockAt
  rw [List.drop_append_of_le_length (by omega),
    List.take_append_of_le_length (by simp only [List.length_drop]; omega)]

theorem blockAt_last (c x : List Nat) (bs m : Nat) (hc : c.length = m * bs)
    (hx : x.length = bs) : blockAt (c ++ x) bs m = x := by
  unfold blockAt
  rw [List.drop_left' hc, List.take_of_length_le (by omega)]

theorem readExact_ok (c : List Nat) (pos n : Nat) (h : pos + n ≤ c.length) :
    readExact c pos n = .ok ((c.drop pos).take n, pos + n) := by
  simp [readExact, h]

theorem readExact_eof (c : List Nat) (pos n : Nat) (h : c.length < pos + n) :
    readExact c pos n = .error (.IOError .unexpectedEof) := by
  rw [readExact, if_neg (by omega)]

theorem block_count_ok (f : File) (n : Nat) (hn : 0 < n) (hbs : 0 < f.block_size)
    (hlen : f.contents.length = n * f.block_size) : f.block_count = .ok n := by
  have hpos : 0 < f.contents.length := by
    rw [hlen]
    exact Nat.mul_pos hn hbs
  rw [File.block_count, if_neg (by omega), if_neg (by omega),
    if_neg (not_ne_iff.mpr (by rw [hlen]; exact Nat.mul_mod_left n _)), hlen,
    Nat.mul_div_cancel _ hbs]

theorem vabLoop_ok_iff (c : List Nat) (bs n : Nat) (hbs : DIGEST_SIZE ≤ bs)
    (hlen : c.length = n * bs) :
    ∀ r b, 0 < b → b + r = n →
      (vabLoop c bs (blockAt c bs (b - 1)) (b * bs) b r = .ok () ↔
        ∀ i, i < n → b ≤ i → chainOk c bs i) := by
  intro r
  induction r with
  | zero =>
    intro b hb hbn
    constructor
    · intro _ i hi hbi
      omega
    · intro _
      rfl
  | succ r ih =>
    intro b hb hbn
    have hle : b * bs + bs ≤ c.length := by
      have h1 : (b + 1) * bs ≤ n * bs := Nat.mul_le_mul_right bs (by omega)
      rw [Nat.succ_mul] at h1
      omega
    rw [vabLoop, readExact_ok c (b * bs) bs hle]
    show (if (blockAt c bs b).length < DIGEST_SIZE then PRes.fatal
      else if (blockAt c bs b).take DIGEST_SIZE ≠ sha256 (blockAt c bs (b - 1)) then
        PRes.err (.InvalidBlockHash b)
      else vabLoop c bs (blockAt c bs b) (b * bs + bs) (b + 1) r) = .ok () ↔ _
    rw [blockAt_length c bs b hle, if_neg (by omega)]
    by_cases hcb : chainOk c bs b
    · have hcb' : (blockAt c bs b).take DIGEST_SIZE = sha256 (blockAt c bs (b - 1)) := hcb
      rw [if_neg (not_not_intro hcb')]
      have H := ih (b + 1) (by omega) (by omega)
      rw [Nat.add_sub_cancel, Nat.succ_mul] at H
      rw [H]
      constructor
      · intro h i hi hbi
        rcases Nat.eq_or_lt_of_le hbi with h1 | h1
        · exact h1 ▸ hcb
        · exact h i hi h1
      · intro h i hi hbi
        exact h i hi (by omega)
    · have hcb' : (blockAt c bs b).take DIGEST_SIZE ≠ sha256 (blockAt c bs (b - 1)) := hcb
      rw [if_pos hcb']
      constructor
      · intro h
        exact absurd h (by simp)
      · intro h
        exact absurd (h b (by omega) le_rfl) hcb

theorem vabLoop_err (c : List Nat) (bs n : Nat) (hbs : DIGEST_SIZE ≤ bs)
    (hlen : c.length = n * bs) :
    ∀ r b, 0 < b → b + r = n → ∀ j, b ≤ j → j < n → ¬ chainOk c bs j →
      (∀ i, b ≤ i → i < j → chainOk c bs i) →
      vabLoop c bs (blockAt c bs (b - 1)) (b * bs) b r = .err (.InvalidBlockHash j) := by
  intro r
  induction r with
  | zero =>
    intro b hb hbn j hbj hjn hbad hmin
    omega
  | succ r ih =>
    intro b hb hbn j hbj hjn hbad hmin
    have hle : b * bs + bs ≤ c.length := by
      have h1 : (b + 1) * bs ≤ n * bs := Nat.mul_le_mul_right bs (by omega)
      rw [Nat.succ_mul] at h1
      omega
    rw [vabLoop, readExact_ok c (b * bs) bs hle]
    show (if (blockAt c bs b).length < DIGEST_SIZE then PRes.fatal
      else if (blockAt c bs b).take DIGEST_SIZE ≠ sha256 (blockAt c bs (b - 1)) then
        PRes.err (.InvalidBlockHash b)
      else vabLoop c bs (blockAt c bs b) (b * bs + bs) (b + 1) r) = _
    rw [blockAt_length c bs b hle, if_neg (by omega)]
    rcases Nat.eq_or_lt_of_le hbj with h1 | h1
    · have hcb' : (blockAt c bs b).take DIGEST_SIZE ≠ sha256 (blockAt c bs (b - 1)) := by
        rw [h1]
        exact hbad
      rw [if_pos hcb', h1]
    · have hcb : chainOk c bs b := hmin b le_rfl h1
      have hcb' : (blockAt c bs b).take DIGEST_SIZE = sha256 (blockAt c bs (b - 1)) := hcb
      rw [if_neg (not_not_intro hcb')]
      have H := ih (b + 1) (by omega) (by omega) j (by omega) hjn hbad
        (fun i hi1 hi2 => hmin i (by omega) hi2)
      rw [Nat.add_sub_cancel, Nat.succ_mul] at H
      exact H

/-! ## Claim C2 -/

/-- C2: for every store whose file size is a nonzero multiple of the block
size (a store's block holds a 32-byte digest field, so `DIGEST_SIZE ≤
block_size`), `Reader::validate_all_blocks` returns `Ok(())` iff for every
block index `i > 0` the previous-digest field stored in block `i` equals
the digest of the full serialized bytes of block `i - 1`; on failure it
returns `InvalidBlockHash` carrying the smallest such mismatching index. -/
theorem validate_all_blocks_spec (f : File) (n : Nat) (hn : 0 < n)
    (hbs : DIGEST_SIZE ≤ f.block_size)
    (hlen : f.contents.length = n * f.block_size) :
    ((Reader.new f).validate_all_blocks = .ok () ↔
      ∀ i, i < n → 0 < i → chainOk f.contents f.block_size i) ∧
    (∀ j, j < n → 0 < j → ¬ chainOk f.contents f.block_size j →
      (∀ i, i < j → 0 < i → chainOk f.contents f.block_size i) →
      (Reader.new f).validate_all_blocks = .err (.InvalidBlockHash j)) := by
  have hbs0 : 0 < f.block_size := lt_of_lt_of_le (by decide) hbs
  have hbc := block_count_ok f n hn hbs0 hlen
  have hg : f.block_size ≤ f.contents.length := by
    have h1 : 1 * f.block_size ≤ n * f.block_size :=
      Nat.mul_le_mul_right _ (by omega)
    rw [Nat.one_mul] at h1
    omega
  have heq : (Reader.new f).validate_all_blocks =
      vabLoop f.contents f.block_size (blockAt f.contents f.block_size 0)
        f.block_size 1 (n - 1) := by
    show (match f.block_count with
      | .fatal => PRes.fatal
      | .err e => .err e
      | .ok count =>
        match readExact f.contents 0 f.block_size with
        | .error e => .err e
        | .ok (buf, pos) =>
          vabLoop f.contents f.block_size buf pos 1 (count - 1)) = _
    rw [hbc, readExact_ok f.contents 0 f.block_size (by omega)]
    show vabLoop f.contents f.block_size ((f.contents.drop 0).take f.block_size)
      (0 + f.block_size) 1 (n - 1) = _
    simp [blockAt]
  constructor
  · rw [heq]
    have H := vabLoop_ok_iff f.contents f.block_size n hbs hlen (n - 1) 1
      (by omega) (by omega)
    rw [Nat.one_mul] at H
    simp only [show (1 : Nat) - 1 = 0 from rfl] at H
    exact H
  · intro j hjn hj0 hbad hmin
    rw [heq]
    have H := vabLoop_err f.contents f.block_size n hbs hlen (n - 1) 1
      (by omega) (by omega) j (by omega) hjn hbad
      (fun i hi1 hi2 => hmin i hi2 (by omega))
    rw [Nat.one_mul] at H
    simp only [show (1 : Nat) - 1 = 0 from rfl] at H
    exact H

/-- C2 witness: on the concrete two-block store `exF2` (built by
`create_new` and one `append`), `validate_all_blocks` succeeds, via the
theorem applied at `n = 2` with the pairwise condition checked by
evaluation. -/
theorem validate_all_blocks_spec_witness :
    (Reader.new exF2).validate_all_blocks = .ok () :=
  (validate_all_blocks_spec exF2 2 (by decide) (by decide) (by decide)).1.mpr
    (by decide)

/-! ## Writer invariants -/

theorem append_ok_inv (w : Writer) (d : List Nat)
    (hd : d.length + DIGEST_SIZE = w.file.block_size) :
    w.append d = .ok ⟨⟨w.file.contents ++ (w.last_hash ++ d), w.file.block_size⟩,
      sha256 (w.last_hash ++ d), w.last_hash ++ d⟩ := by
  rw [Writer.append, if_neg (not_not_intro hd)]

theorem append_ok_len (w : Writer) (d : List Nat) (w1 : Writer)
    (h : w.append d = .ok w1) :
    d.length + DIGEST_SIZE = w.file.block_size := by
  by_contra hne
  rw [Writer.append, if_pos hne] at h
  exact Except.noConfusion h

theorem append_ok_eq (w : Writer) (d : List Nat) (w1 : Writer)
    (h : w.append d = .ok w1) :
    w1 = ⟨⟨w.file.contents ++ (w.last_hash ++ d), w.file.block_size⟩,
      sha256 (w.last_hash ++ d), w.last_hash ++ d⟩ := by
  have hd := append_ok_len w d w1 h
  rw [append_ok_inv w d hd] at h
  exact (Except.ok.inj h).symm

/-- After a successful `appendList` starting from a writer whose cached
last-hash is the digest of the last of its `m` blocks, the block size is
unchanged, only new bytes were appended, the file holds `m + ds.length`
blocks, the cached last-hash is again the digest of the last block, and
every appended block chains to its immediate predecessor. -/
theorem appendList_spec (ds : List (List Nat)) :
    ∀ (w w' : Writer) (m : Nat), 0 < m →
      w.file.contents.length = m * w.file.block_size →
      w.last_hash = sha256 (blockAt w.file.contents w.file.block_size (m - 1)) →
      appendList w ds = .ok w' →
      w'.file.block_size = w.file.block_size ∧
      (∃ t, w'.file.contents = w.file.contents ++ t) ∧
      w'.file.contents.length = (m + ds.length) * w.file.block_size ∧
      w'.last_hash =
        sha256 (blockAt w'.file.contents w.file.block_size (m + ds.length - 1)) ∧
      (∀ i, m ≤ i → i < m + ds.length →
        chainOk w'.file.contents w.file.block_size i) := by
  induction ds with
  | nil =>
    intro w w' m hm hlen hlh hap
    have hap' : Except.ok w = .ok w' := hap
    have hw : w' = w := (Except.ok.inj hap').symm
    subst hw
    refine ⟨rfl, ⟨[], by simp⟩, by simpa using hlen, by simpa using hlh, ?_⟩
    intro i h1 h2
    simp at h2
    omega
  | cons d ds ih =>
    intro w w' m hm hlen hlh hap
    rw [appendList] at hap
    cases happ : w.append d with
    | error e =>
      rw [happ] at hap
      exact Except.noConfusion hap
    | ok w1 =>
      rw [happ] at hap
      have hap' : appendList w1 ds = .ok w' := hap
      have hd := append_ok_len w d w1 happ
      have hw1 := append_ok_eq w d w1 happ
      have hlh32 : w.last_hash.length = DIGEST_SIZE := by
        rw [hlh]
        exact sha256_length _
      have hblk : (w.last_hash ++ d).length = w.file.block_size := by
        rw [List.length_append]
        omega
      have h1m : w1.file.block_size = w.file.block_size := by rw [hw1]
      have h1c : w1.file.contents = w.file.contents ++ (w.last_hash ++ d) := by
        rw [hw1]
      have hmsucc : m * w.file.block_size + w.file.block_size =
          (m + 1) * w.file.block_size := (Nat.succ_mul m _).symm
      have h1len : w1.file.contents.length = (m + 1) * w.file.block_size := by
        rw [h1c, List.length_append, hlen, hblk, hmsucc]
      have hlast : blockAt w1.file.contents w.file.block_size m =
          w.last_hash ++ d := by
        rw [h1c]
        exact blockAt_last _ _ _ _ hlen hblk
      have h1lh : w1.last_hash =
          sha256 (blockAt w1.file.contents w.file.block_size (m + 1 - 1)) := by
        rw [Nat.add_sub_cancel, hlast, hw1]
      have IH := ih w1 w' (m + 1) (by omega) (by rw [h1m]; exact h1len)
        (by rw [h1m]; exact h1lh) hap'
      obtain ⟨A1, A2, A3, A4, A5⟩ := IH
      obtain ⟨t, ht⟩ := A2
      have hbs' : w'.file.block_size = w.file.block_size := A1.trans h1m
      have hct : w'.file.contents =
          w.file.contents ++ ((w.last_hash ++ d) ++ t) := by
        rw [ht, h1c, List.append_assoc]
      have hL : m + 1 + ds.length = m + (d :: ds).length := by
        simp
        omega
      refine ⟨hbs', ⟨(w.last_hash ++ d) ++ t, hct⟩, ?_, ?_, ?_⟩
      · rw [← hL, ← h1m]
        exact A3
      · rw [← hL, ← h1m]
        exact A4
      · intro i hmi hiL
        rcases Nat.eq_or_lt_of_le hmi with h1 | h1
      -- the freshly appended block at index m chains to block m - 1
        · subst h1
          show (blockAt w'.file.contents w.file.block_size m).take DIGEST_SIZE =
            sha256 (blockAt w'.file.contents w.file.block_size (m - 1))
          have e1 : blockAt w'.file.contents w.file.block_size m =
              w.last_hash ++ d := by
            rw [ht, blockAt_append _ _ _ _ (by rw [h1len, ← hmsucc]), hlast]
          have e2 : blockAt w'.file.contents w.file.block_size (m - 1) =
              blockAt w.file.contents w.file.block_size (m - 1) := by
            rw [hct]
            refine blockAt_append _ _ _ _ ?_
            have : (m - 1) * w.file.block_size + w.file.block_size =
                m * w.file.block_size := by
              rw [← Nat.succ_mul]
              congr 1
              omega
            omega
          rw [e1, e2, List.take_left' hlh32, ← hlh]
        · have := A5 i (by omega) (by rw [hL]; exact hiL)
          exact h1m ▸ this

/-! ## Claim C1 -/

/-- C1: for every store file with `k ≥ 1` whole blocks and every sequence
of successful `Writer::append` calls made through one writer constructed
by `Writer::new` (which reads the last block and caches the digest of its
full serialized bytes), every appended block's previous-digest field
equals the SHA-256 digest of the full serialized bytes of the block
immediately before it in the file — including every block of a
multi-append batch, each chaining to its immediate predecessor. -/
theorem writer_append_chain (f : File) (k : Nat) (hk : 0 < k)
    (hlen : f.contents.length = k * f.block_size)
    (ds : List (List Nat)) (w w' : Writer)
    (hw : Writer.new f = .ok w) (hws : appendList w ds = .ok w')
    (i : Nat) (hik : k ≤ i) (hic : i < k + ds.length) :
    chainOk w'.file.contents f.block_size i := by
  have hble : f.block_size ≤ f.contents.length := by
    have h1 : 1 * f.block_size ≤ k * f.block_size :=
      Nat.mul_le_mul_right _ (by omega)
    rw [Nat.one_mul] at h1
    omega
  have hsub : f.contents.length - f.block_size = (k - 1) * f.block_size := by
    have : (k - 1) * f.block_size + f.block_size = k * f.block_size := by
      rw [← Nat.succ_mul]
      congr 1
      omega
    omega
  have hw' : w = ⟨f, sha256 (blockAt f.contents f.block_size (k - 1)),
      blockAt f.contents f.block_size (k - 1)⟩ := by
    rw [Writer.new, if_neg (by omega),
      readExact_ok f.contents (f.contents.length - f.block_size) f.block_size
        (by omega), hsub] at hw
    exact (Except.ok.inj hw).symm
  subst hw'
  have H := appendList_spec ds _ w' k hk hlen rfl hws
  exact H.2.2.2.2 i hik hic

/-- C1 witness: appending one block to the one-block store `exF` through
`Writer::new` yields a block whose previous-digest field is the digest of
the genesis block. -/
theorem writer_append_chain_witness :
    Writer.new exF = .ok exW ∧ appendList exW [[5]] = .ok exW1 ∧
    chainOk exW1.file.contents exF.block_size 1 :=
  ⟨by decide, by decide,
    writer_append_chain exF 1 (by decide) (by decide) [[5]] exW exW1
      (by decide) (by decide) 1 (by decide) (by decide)⟩

/-! ## Claim C4 -/

theorem validate_block_at_unfold (f : File) (n : Nat) (index : Nat)
    (hbc : f.block_count = .ok n) :
    (Reader.new f).validate_block_at index =
      (if n ≤ index then .err .BlockNumDoesNotExist
       else if index = 0 then .ok ()
       else if u64Max < (index - 1) * f.block_size then .err .IntegerOverflow
       else
         match readExact f.contents ((index - 1) * f.block_size) f.block_size with
         | .error e => .err e
         | .ok (buf1, pos1) =>
           match readExact f.contents pos1 f.block_size with
           | .error e => .err e
           | .ok (buf2, _) =>
             if buf2.length < DIGEST_SIZE then .fatal
             else if sha256 buf1 ≠ buf2.take DIGEST_SIZE then
               .err (.InvalidBlockHash index)
             else .ok ()) := by
  show (match f.block_count with
    | .fatal => PRes.fatal
    | .err e => PRes.err e
    | .ok count =>
      if count ≤ index then PRes.err .BlockNumDoesNotExist
      else if index = 0 then PRes.ok ()
      else if u64Max < (index - 1) * f.block_size then PRes.err .IntegerOverflow
      else
        match readExact f.contents ((index - 1) * f.block_size) f.block_size with
        | .error e => PRes.err e
        | .ok (buf1, pos1) =>
          match readExact f.contents pos1 f.block_size with
          | .error e => PRes.err e
          | .ok (buf2, _) =>
            if buf2.length < DIGEST_SIZE then PRes.fatal
            else if sha256 buf1 ≠ buf2.take DIGEST_SIZE then
              PRes.err (.InvalidBlockHash index)
            else PRes.ok ()) = _
  rw [hbc]

theorem validate_block_at_mid (f : File) (n : Nat) (hn : 0 < n)
    (hbs : DIGEST_SIZE ≤ f.block_size)
    (hlen : f.contents.length = n * f.block_size)
    (hu64 : f.contents.length ≤ u64Max)
    (index : Nat) (h0 : 0 < index) (hn2 : index < n) :
    (Reader.new f).validate_block_at index =
      if sha256 (blockAt f.contents f.block_size (index - 1)) ≠
          (blockAt f.contents f.block_size index).take DIGEST_SIZE
      then .err (.InvalidBlockHash index) else .ok () := by
  have hbs0 : 0 < f.block_size := lt_of_lt_of_le (by decide) hbs
  have hbc := block_count_ok f n hn hbs0 hlen
  have hidx : (index - 1) * f.block_size + f.block_size =
      index * f.block_size := by
    rw [← Nat.succ_mul]
    congr 1
    omega
  have hnext : index * f.block_size + f.block_size =
      (index + 1) * f.block_size := (Nat.succ_mul index _).symm
  have hle1 : (index - 1) * f.block_size + f.block_size ≤
      f.contents.length := by
    rw [hidx, hlen]
    exact Nat.mul_le_mul_right _ (by omega)
  have hle2 : index * f.block_size + f.block_size ≤ f.contents.length := by
    rw [hnext, hlen]
    exact Nat.mul_le_mul_right _ (by omega)
  have hov : ¬ (u64Max < (index - 1) * f.block_size) := by omega
  rw [validate_block_at_unfold f n index hbc, if_neg (by omega),
    if_neg (by omega), if_neg hov,
    readExact_ok f.contents ((index - 1) * f.block_size) f.block_size hle1]
  show (match readExact f.contents ((index - 1) * f.block_size + f.block_size)
      f.block_size with
    | .error e => PRes.err e
    | .ok (buf2, _) =>
      if buf2.length < DIGEST_SIZE then PRes.fatal
      else if sha256 ((f.contents.drop ((index - 1) * f.block_size)).take
          f.block_size) ≠ buf2.take DIGEST_SIZE then
        PRes.err (.InvalidBlockHash index)
      else PRes.ok ()) = _
  rw [hidx, readExact_ok f.contents (index * f.block_size) f.block_size hle2]
  show (if ((f.contents.drop (index * f.block_size)).take f.block_size).length <
      DIGEST_SIZE then PRes.fatal
    else if sha256 ((f.contents.drop ((index - 1) * f.block_size)).take
        f.block_size) ≠
        ((f.contents.drop (index * f.block_size)).take f.block_size).take
          DIGEST_SIZE then
      PRes.err (.InvalidBlockHash index)
    else PRes.ok ()) = _
  have e1 : (f.contents.drop ((index - 1) * f.block_size)).take f.block_size =
      blockAt f.contents f.block_size (index - 1) := rfl
  have e2 : (f.contents.drop (index * f.block_size)).take f.block_size =
      blockAt f.contents f.block_size index := rfl
  rw [e1, e2, blockAt_length f.contents f.block_size index hle2,
    if_neg (by omega)]

/-- C4: on a valid store of `n` blocks, `Reader::validate_block_at(0)`
returns `Ok(())` with no predecessor check; for `index ≥ n` it returns the
block-does-not-exist error; for `0 < index < n` it recomputes the digest
of block `index - 1` and compares it with the previous-digest field
recorded in block `index`, returning `Err(InvalidBlockHash(index))`
exactly when they differ. -/
theorem validate_block_at_spec (f : File) (n : Nat) (hn : 0 < n)
    (hbs : DIGEST_SIZE ≤ f.block_size)
    (hlen : f.contents.length = n * f.block_size)
    (hu64 : f.contents.length ≤ u64Max) (index : Nat) :
    ((Reader.new f).validate_block_at 0 = .ok ()) ∧
    (n ≤ index →
      (Reader.new f).validate_block_at index = .err .BlockNumDoesNotExist) ∧
    (0 < index → index < n →
      ((chainOk f.contents f.block_size index →
        (Reader.new f).validate_block_at index = .ok ()) ∧
      (¬ chainOk f.contents f.block_size index →
        (Reader.new f).validate_block_at index =
          .err (.InvalidBlockHash index)))) := by
  have hbs0 : 0 < f.block_size := lt_of_lt_of_le (by decide) hbs
  have hbc := block_count_ok f n hn hbs0 hlen
  refine ⟨?_, ?_, ?_⟩
  · rw [validate_block_at_unfold f n 0 hbc, if_neg (by omega), if_pos rfl]
  · intro h
    rw [validate_block_at_unfold f n index hbc, if_pos h]
  · intro h0 hn2
    rw [validate_block_at_mid f n hn hbs hlen hu64 index h0 hn2]
    constructor
    · intro hchain
      have hc : (blockAt f.contents f.block_size index).take DIGEST_SIZE =
          sha256 (blockAt f.contents f.block_size (index - 1)) := hchain
      rw [if_neg (not_not_intro hc.symm)]
    · intro hnochain
      have hc : sha256 (blockAt f.contents f.block_size (index - 1)) ≠
          (blockAt f.contents f.block_size index).take DIGEST_SIZE :=
        fun hx => hnochain hx.symm
      rw [if_pos hc]

/-- C4 witness: on the concrete two-block store `exF2`, index 0 is valid,
index 2 does not exist, and index 1 validates, via the theorem applied at
`n = 2`. -/
theorem validate_block_at_spec_witness :
    (Reader.new exF2).validate_block_at 0 = .ok () ∧
    (Reader.new exF2).validate_block_at 2 = .err .BlockNumDoesNotExist ∧
    (Reader.new exF2).validate_block_at 1 = .ok () :=
  ⟨(validate_block_at_spec exF2 2 (by decide) (by decide) (by decide)
      (by decide) 0).1,
   (validate_block_at_spec exF2 2 (by decide) (by decide) (by decide)
      (by decide) 2).2.1 (by decide),
   ((validate_block_at_spec exF2 2 (by decide) (by decide) (by decide)
      (by decide) 1).2.2 (by decide) (by decide)).1 (by decide)⟩

/-! ## Claim C8 -/

/-- C8: `Reader::seek(index)` computes the byte offset as `index *
block_size` with `u64::checked_mul`: within the representable range the
returned position is exactly the product (no wrap-around), and a product
beyond `u64::MAX` fails with `IntegerOverflow`. -/
theorem seek_checked (r : Reader) (index : Nat) :
    (index * r.block_size ≤ u64Max →
      r.seek index = .ok (index * r.block_size,
        ⟨r.file, index * r.block_size⟩)) ∧
    (u64Max < index * r.block_size → r.seek index = .error .IntegerOverflow) := by
  constructor
  · intro h
    rw [Reader.seek, if_pos h]
  · intro h
    rw [Reader.seek, if_neg (by omega)]

/-- C8 witness: on the 33-byte-block store, seeking block 2 returns byte
offset 66, and seeking index `u64::MAX` fails with `IntegerOverflow`. -/
theorem seek_checked_witness :
    (Reader.new exF).seek 2 = .ok (2 * (Reader.new exF).block_size,
      ⟨(Reader.new exF).file, 2 * (Reader.new exF).block_size⟩) ∧
    (Reader.new exF).seek u64Max = .error .IntegerOverflow :=
  ⟨(seek_checked (Reader.new exF) 2).1 (by decide),
   (seek_checked (Reader.new exF) u64Max).2 (by decide)⟩

/-! ## Claim C5 -/

/-- C5 counterexample: on the one-block store `exF`, reading block index 1
(which resolves past end-of-file) with a correctly sized buffer fails with
the generic short-read error `IOError(UnexpectedEof)` — not with the
distinct `BlockNumDoesNotExist` error the claim requires. -/
theorem read_block_at_eof_cex :
    (Reader.new exF).read_block_at 1 33 = .error (.IOError .unexpectedEof) ∧
    Error.IOError .unexpectedEof ≠ Error.BlockNumDoesNotExist :=
  ⟨by decide, by decide⟩

/-- C5 amended: for an index resolving past end-of-file (exact-size buffer,
no offset overflow), `Reader::read_block_at` fails with the generic
short-read error `IOError(UnexpectedEof)`, not `BlockNumDoesNotExist`;
for an in-range index it reads exactly the one block at that index. -/
theorem read_block_at_spec (f : File) (index bufLen : Nat)
    (hbuf : bufLen = f.block_size)
    (hov : index * f.block_size ≤ u64Max) :
    (f.contents.length < index * f.block_size + f.block_size →
      (Reader.new f).read_block_at index bufLen =
        .error (.IOError .unexpectedEof)) ∧
    (index * f.block_size + f.block_size ≤ f.contents.length →
      (Reader.new f).read_block_at index bufLen =
        .ok (blockAt f.contents f.block_size index,
          ⟨f, index * f.block_size + f.block_size⟩)) := by
  subst hbuf
  have hseek : (Reader.new f).seek index =
      .ok (index * f.block_size, ⟨f, index * f.block_size⟩) := by
    show (if index * f.block_size ≤ u64Max then
        Except.ok (index * f.block_size, (⟨f, index * f.block_size⟩ : Reader))
      else Except.error Error.IntegerOverflow) = _
    rw [if_pos hov]
  constructor
  · intro h
    show (match (Reader.new f).seek index with
      | .error e => Except.error e
      | .ok (_, r1) => r1.read_block f.block_size) = _
    rw [hseek]
    show (if f.block_size ≠ f.block_size then Except.error Error.InvalidSliceLength
      else match readExact f.contents (index * f.block_size) f.block_size with
        | .error e => Except.error e
        | .ok (bytes, pos) => Except.ok (bytes, (⟨f, pos⟩ : Reader))) = _
    rw [if_neg (fun hh => hh rfl),
      readExact_eof f.contents (index * f.block_size) f.block_size h]
  · intro h
    show (match (Reader.new f).seek index with
      | .error e => Except.error e
      | .ok (_, r1) => r1.read_block f.block_size) = _
    rw [hseek]
    show (if f.block_size ≠ f.block_size then Except.error Error.InvalidSliceLength
      else match readExact f.contents (index * f.block_size) f.block_size with
        | .error e => Except.error e
        | .ok (bytes, pos) => Except.ok (bytes, (⟨f, pos⟩ : Reader))) = _
    rw [if_neg (fun hh => hh rfl),
      readExact_ok f.contents (index * f.block_size) f.block_size h]
    rfl

/-- C5 witness (amended): on the two-block store, `read_block_at(1)` with a
33-byte buffer returns exactly block 1; on the one-block store the same
call fails with the short-read I/O error. -/
theorem read_block_at_spec_witness :
    (Reader.new exF2).read_block_at 1 33 = .ok (exB1, ⟨exF2, 66⟩) ∧
    (Reader.new exF).read_block_at 1 33 =
      .error (.IOError .unexpectedEof) := by
  constructor
  · have h := (read_block_at_spec exF2 1 33 (by decide) (by decide)).2 (by decide)
    exact h.trans (by decide)
  · exact (read_block_at_spec exF 1 33 (by decide) (by decide)).1 (by decide)

/-! ## Claim C3 -/

/-- C3 counterexample: creating a store with payload size 64 (using the
identity serializer, which leaves the 64 zero payload bytes in place)
yields a genesis block whose previous-digest field holds the little-endian
block size 96 followed by 28 zero bytes — not the initial digest
constant. -/
theorem create_new_genesis_cex :
    (create_new false (fun l => .ok l) 64).toOption.map
      (fun f => f.contents.take DIGEST_SIZE) =
      some (toLe 4 96 ++ List.replicate 28 0) ∧
    toLe 4 96 ++ List.replicate 28 0 ≠ initialDigestBytes :=
  ⟨by decide, by decide⟩

/-- C3 amended: `create_new` writes exactly one block and the file then
contains exactly `block_size` bytes, but the genesis block's
previous-digest field holds the 4-byte little-endian block size followed
by zero bytes (it doubles as the size header), not the initial digest
constant. -/
theorem create_new_genesis (ser : Serializer) (s : Nat) (hs : 0 < s)
    (hmax : s ≤ u32Max - DIGEST_SIZE) (out : List Nat)
    (hser : ser (List.replicate s 0) = .ok out) (hout : out.length = s)
    (f : File) (hok : create_new false ser s = .ok f) :
    f.block_size = s + DIGEST_SIZE ∧
    f.contents.length = f.block_size ∧
    f.contents.take DIGEST_SIZE =
      toLe 4 (s + DIGEST_SIZE) ++ List.replicate (DIGEST_SIZE - 4) 0 ∧
    f.contents.drop DIGEST_SIZE = out := by
  have hD : DIGEST_SIZE = 32 := rfl
  rw [create_new, if_neg (by omega), if_neg (by omega),
    if_neg (by simp)] at hok
  have harg : (toLe 4 (s + DIGEST_SIZE) ++
      List.replicate (s + DIGEST_SIZE - 4) 0).drop DIGEST_SIZE =
      List.replicate s 0 := by
    rw [List.drop_append_eq_append_drop, toLe_length, List.drop_replicate,
      List.drop_eq_nil_of_le (by rw [toLe_length]; omega)]
    rw [List.nil_append]
    congr 1
  have hok' : (match ser ((toLe 4 (s + DIGEST_SIZE) ++
      List.replicate (s + DIGEST_SIZE - 4) 0).drop DIGEST_SIZE) with
    | .error e => Except.error e
    | .ok payload => Except.ok (⟨(toLe 4 (s + DIGEST_SIZE) ++
        List.replicate (s + DIGEST_SIZE - 4) 0).take DIGEST_SIZE ++ payload,
        s + DIGEST_SIZE⟩ : File)) = .ok f := hok
  rw [harg, hser] at hok'
  obtain rfl := (Except.ok.inj hok')
  have htake : (toLe 4 (s + DIGEST_SIZE) ++
      List.replicate (s + DIGEST_SIZE - 4) 0).take DIGEST_SIZE =
      toLe 4 (s + DIGEST_SIZE) ++ List.replicate (DIGEST_SIZE - 4) 0 := by
    rw [List.take_append_eq_append_take, toLe_length,
      List.take_of_length_le (by rw [toLe_length]; omega),
      List.take_replicate]
    congr 2
    omega
  have hlen32 : ((toLe 4 (s + DIGEST_SIZE) ++
      List.replicate (s + DIGEST_SIZE - 4) 0).take DIGEST_SIZE).length =
      DIGEST_SIZE := by
    rw [List.length_take, List.length_append, toLe_length,
      List.length_replicate]
    omega
  refine ⟨rfl, ?_, ?_, ?_⟩
  · show ((toLe 4 (s + DIGEST_SIZE) ++
      List.replicate (s + DIGEST_SIZE - 4) 0).take DIGEST_SIZE ++ out).length =
      s + DIGEST_SIZE
    rw [List.length_append, hlen32, hout]
    omega
  · show ((toLe 4 (s + DIGEST_SIZE) ++
      List.replicate (s + DIGEST_SIZE - 4) 0).take DIGEST_SIZE ++
        out).take DIGEST_SIZE = _
    rw [List.take_left' hlen32, htake]
  · show ((toLe 4 (s + DIGEST_SIZE) ++
      List.replicate (s + DIGEST_SIZE - 4) 0).take DIGEST_SIZE ++
        out).drop DIGEST_SIZE = _
    rw [List.drop_left' hlen32]

/-- C3 witness (amended): creating the 33-byte-block store writes the one
33-byte genesis block with the size header in the digest field and
payload byte 7. -/
theorem create_new_genesis_witness :
    create_new false (fun _ => .ok [7]) 1 = .ok exF ∧
    exF.block_size = 1 + DIGEST_SIZE ∧
    exF.contents.length = exF.block_size ∧
    exF.contents.take DIGEST_SIZE =
      toLe 4 (1 + DIGEST_SIZE) ++ List.replicate (DIGEST_SIZE - 4) 0 ∧
    exF.contents.drop DIGEST_SIZE = [7] :=
  ⟨by decide,
    create_new_genesis (fun _ => .ok [7]) 1 (by decide) (by decide) [7]
      (by decide) (by decide) exF (by decide)⟩

/-! ## Claim C7 -/

/-- C7 counterexample: `open_existing` on an empty file fails with
`IOError(UnexpectedEof)` (the 4-byte size-header read hits end-of-file
before `validate_size` runs), not with the `FileIsEmpty` error; and
`create_new` over an already-existing path fails with the underlying
`IOError(AlreadyExists)`, not with the `PathAlreadyExists` variant. -/
theorem error_kind_cex :
    open_existing true false [] = .err (.IOError .unexpectedEof) ∧
    Error.IOError .unexpectedEof ≠ Error.FileIsEmpty ∧
    create_new true (fun l => .ok l) 64 = .error (.IOError .alreadyExists) ∧
    Error.IOError .alreadyExists ≠ Error.PathAlreadyExists :=
  ⟨by decide, by decide, by decide, by decide⟩

/-- C7 amended: `open_existing` on an empty (or shorter-than-4-byte) file
fails with `IOError(UnexpectedEof)` from reading the size header;
`open_existing` on a file of at least 4 bytes whose length is not a
multiple of the (nonzero) header-declared block size fails with
`InvalidFileSize`; `create_new` over an existing path (with a valid size
argument) fails with `IOError(AlreadyExists)`; and `block_count` fails
with `FileIsEmpty` on an empty file and `InvalidFileSize` when the length
is not a multiple of the block size, otherwise returning length divided
by block size. -/
theorem error_kind_boundaries :
    (open_existing true false [] = .err (.IOError .unexpectedEof)) ∧
    (∀ c : List Nat, 4 ≤ c.length → fromLe (c.take 4) ≠ 0 →
      c.length % fromLe (c.take 4) ≠ 0 →
      open_existing true false c = .err .InvalidFileSize) ∧
    (∀ (ser : Serializer) (s : Nat), 0 < s → s ≤ u32Max - DIGEST_SIZE →
      create_new true ser s = .error (.IOError .alreadyExists)) ∧
    (∀ f : File,
      (f.contents.length = 0 → f.block_count = .err .FileIsEmpty) ∧
      (f.contents.length ≠ 0 → 0 < f.block_size →
        f.contents.length % f.block_size ≠ 0 →
        f.block_count = .err .InvalidFileSize) ∧
      (f.contents.length ≠ 0 → 0 < f.block_size →
        f.contents.length % f.block_size = 0 →
        f.block_count = .ok (f.contents.length / f.block_size))) := by
  refine ⟨by decide, ?_, ?_, ?_⟩
  · intro c h4 hbs hmod
    show (if c.length < 4 then PRes.err (.IOError .unexpectedEof)
      else match validate_size c.length (fromLe (c.take 4)) with
        | .fatal => PRes.fatal
        | .err e => PRes.err e
        | .ok _ => PRes.ok (⟨c, fromLe (c.take 4)⟩ : File)) = _
    rw [if_neg (by omega), validate_size, if_neg (by omega), if_neg hbs,
      if_pos hmod]
  · intro ser s hs hmax
    rw [create_new, if_neg (by omega), if_neg (by omega), if_pos rfl]
  · intro f
    refine ⟨?_, ?_, ?_⟩
    · intro h
      rw [File.block_count, if_pos h]
    · intro h1 h2 h3
      rw [File.block_count, if_neg h1, if_neg (by omega), if_pos h3]
    · intro h1 h2 h3
      rw [File.block_count, if_neg h1, if_neg (by omega),
        if_neg (not_not_intro h3)]

/-- C7 witness (amended): a 34-byte file whose header declares block size
33 fails `open_existing` with `InvalidFileSize`; `create_new` on an
existing path gives the `AlreadyExists` I/O error; `block_count` on an
empty, corrupt, and valid store gives `FileIsEmpty`, `InvalidFileSize`
and 2 respectively. -/
theorem error_kind_boundaries_witness :
    open_existing true false (toLe 4 33 ++ List.replicate 30 0) =
      .err .InvalidFileSize ∧
    create_new true (fun _ => .ok [7]) 1 = .error (.IOError .alreadyExists) ∧
    (File.mk [] 33).block_count = .err .FileIsEmpty ∧
    (File.mk (List.replicate 34 0) 33).block_count = .err .InvalidFileSize ∧
    exF2.block_count = .ok 2 := by
  refine ⟨?_, ?_, ?_, ?_, ?_⟩
  · exact error_kind_boundaries.2.1 (toLe 4 33 ++ List.replicate 30 0)
      (by decide) (by decide) (by decide)
  · exact error_kind_boundaries.2.2.1 (fun _ => .ok [7]) 1 (by decide)
      (by decide)
  · exact (error_kind_boundaries.2.2.2 (File.mk [] 33)).1 (by decide)
  · exact (error_kind_boundaries.2.2.2 (File.mk (List.replicate 34 0) 33)).2.1
      (by decide) (by decide) (by decide)
  · exact ((error_kind_boundaries.2.2.2 exF2).2.2 (by decide) (by decide)
      (by decide)).trans (by decide)

/-! ## Claim C10 -/

/-- C10: `File::create_new` rejects `size = 0` with `ZeroBlockSize` and
`size > u32::MAX - DIGEST_SIZE` with `BlockSizeTooBig` regardless of the
file-system state or serializer (so before any I/O); on success the
store's block size is the caller's size plus `DIGEST_SIZE`; and a
successful `append` requires its payload to be exactly `block_size -
DIGEST_SIZE` bytes, the written block being the 32 last-hash bytes plus
the payload. -/
theorem create_new_size_checks :
    (∀ (pe : Bool) (ser : Serializer),
      create_new pe ser 0 = .error .ZeroBlockSize) ∧
    (∀ (pe : Bool) (ser : Serializer) (s : Nat), u32Max - DIGEST_SIZE < s →
      create_new pe ser s = .error .BlockSizeTooBig) ∧
    (∀ (pe : Bool) (ser : Serializer) (s : Nat) (f : File),
      create_new pe ser s = .ok f → f.block_size = s + DIGEST_SIZE) ∧
    (∀ (w : Writer) (d : List Nat) (w' : Writer), w.append d = .ok w' →
      d.length + DIGEST_SIZE = w.file.block_size ∧
      w'.file.contents = w.file.contents ++ (w.last_hash ++ d)) := by
  refine ⟨?_, ?_, ?_, ?_⟩
  · intro pe ser
    rw [create_new, if_neg (by omega), if_pos rfl]
  · intro pe ser s h
    rw [create_new, if_pos h]
  · intro pe ser s f h
    rw [create_new] at h
    by_cases h1 : u32Max - DIGEST_SIZE < s
    · rw [if_pos h1] at h
      exact Except.noConfusion h
    rw [if_neg h1] at h
    by_cases h2 : s = 0
    · rw [if_pos h2] at h
      exact Except.noConfusion h
    rw [if_neg h2] at h
    by_cases h3 : pe = true
    · rw [if_pos h3] at h
      exact Except.noConfusion h
    rw [if_neg h3] at h
    have h' : (match ser ((toLe 4 (s + DIGEST_SIZE) ++
        List.replicate (s + DIGEST_SIZE - 4) 0).drop DIGEST_SIZE) with
      | .error e => Except.error e
      | .ok payload => Except.ok (⟨(toLe 4 (s + DIGEST_SIZE) ++
          List.replicate (s + DIGEST_SIZE - 4) 0).take DIGEST_SIZE ++ payload,
          s + DIGEST_SIZE⟩ : File)) = .ok f := h
    cases hser : ser ((toLe 4 (s + DIGEST_SIZE) ++
        List.replicate (s + DIGEST_SIZE - 4) 0).drop DIGEST_SIZE) with
    | error e =>
      rw [hser] at h'
      exact Except.noConfusion h'
    | ok payload =>
      rw [hser] at h'
      rw [← Except.ok.inj h']
  · intro w d w' h
    refine ⟨append_ok_len w d w' h, ?_⟩
    rw [append_ok_eq w d w' h]

/-- C10 witness: size 0 and size `u32::MAX - 31` are rejected; the store
created with size 1 has block size 33; appending `[5]` to `exW` (block
size 33) succeeds with payload length 1 and writes last-hash plus
payload. -/
theorem create_new_size_checks_witness :
    create_new false (fun l => .ok l) 0 = .error .ZeroBlockSize ∧
    create_new false (fun l => .ok l) 4294967264 = .error .BlockSizeTooBig ∧
    exF.block_size = 1 + DIGEST_SIZE ∧
    ((5 : Nat) :: []).length + DIGEST_SIZE = exW.file.block_size ∧
    exW1.file.contents = exW.file.contents ++ (exW.last_hash ++ [5]) := by
  refine ⟨?_, ?_, ?_, ?_, ?_⟩
  · exact create_new_size_checks.1 false (fun l => .ok l)
  · exact create_new_size_checks.2.1 false (fun l => .ok l) 4294967264
      (by decide)
  · exact create_new_size_checks.2.2.1 false (fun _ => .ok [7]) 1 exF
      (by decide)
  · exact (create_new_size_checks.2.2.2 exW [5] exW1 (by decide)).1
  · exact (create_new_size_checks.2.2.2 exW [5] exW1 (by decide)).2

/-! ## Claim C6 -/

/-- C6 counterexample: pushing the `src/main.rs` codec through the real
pipeline — create the 96-byte-block store from a genesis `Block`, open a
writer, append the serialized `Block` with timestamp 0 — the appended
96-byte block's first 8 bytes are the start of the previous block's
digest, not the little-endian timestamp, and its bytes 64..96 hold the
content digest, not the previous-block digest. -/
theorem append_block_layout_cex :
    create_new false
      (Block.serialize ⟨0, 123, 1, 11, List.replicate 32 0⟩) 64 = .ok exF96 ∧
    Writer.new exF96 = .ok exW96 ∧
    Block.serialize ⟨0, 124, 1, 4, List.replicate 32 1⟩ (List.replicate 64 0) =
      .ok exData1 ∧
    exW96.append exData1 = .ok exW96a ∧
    blockAt exW96a.file.contents 96 1 = exBlk1 ∧
    exBlk1.take 8 ≠ toLe 8 (i64Bits 0) ∧
    exBlk1.drop 64 ≠ sha256 (blockAt exW96a.file.contents 96 0) :=
  ⟨by decide, by decide, by decide, by decide, by decide, by decide,
    by decide⟩

/-- C6 amended: in the 96-byte on-disk block written by `Writer::append`
for a serialized `src/main.rs` `Block`, the previous-block digest
occupies the first 32 bytes (offset 0), the little-endian timestamp sits
at offset 32 (the first 8 bytes of the 64-byte payload), and the last 32
bytes (offset 64) hold the content digest (`merkle_root`); integer fields
are little-endian. -/
theorem append_block_layout (w w' : Writer) (B : Block) (buf data : List Nat)
    (hlh : w.last_hash.length = DIGEST_SIZE)
    (hser : B.serialize buf = .ok data)
    (happ : w.append data = .ok w') :
    w'.file.contents = w.file.contents ++ (w.last_hash ++ data) ∧
    (w.last_hash ++ data).take DIGEST_SIZE = w.last_hash ∧
    ((w.last_hash ++ data).drop DIGEST_SIZE).take 8 =
      toLe 8 (i64Bits B.timestamp) ∧
    (w.last_hash ++ data).drop 64 = B.merkle_root := by
  have hD : DIGEST_SIZE = 32 := rfl
  have hdata : data = toLe 8 (i64Bits B.timestamp) ++ (toLe 8 B.user_id ++
      (toLe 8 B.version ++ (toLe 8 B.data_size ++ B.merkle_root))) := by
    by_cases hb : buf.length = PAYLOAD_SIZE
    · rw [Block.serialize, if_neg (not_not_intro hb)] at hser
      exact (Except.ok.inj hser).symm
    · rw [Block.serialize, if_pos hb] at hser
      exact Except.noConfusion hser
  have hdata2 : data = (toLe 8 (i64Bits B.timestamp) ++ toLe 8 B.user_id ++
      toLe 8 B.version ++ toLe 8 B.data_size) ++ B.merkle_root := by
    rw [hdata]
    simp [List.append_assoc]
  have hplen : (toLe 8 (i64Bits B.timestamp) ++ toLe 8 B.user_id ++
      toLe 8 B.version ++ toLe 8 B.data_size).length = 32 := by
    simp [toLe_length]
  refine ⟨?_, List.take_left' hlh, ?_, ?_⟩
  · rw [append_ok_eq w data w' happ]
  · rw [List.drop_left' hlh, hdata,
      List.take_append_of_le_length (by simp [toLe_length]),
      List.take_of_length_le (by simp [toLe_length])]
  · rw [List.drop_append_eq_append_drop, hlh, hD,
      List.drop_eq_nil_of_le (by omega), List.nil_append]
    show data.drop 32 = B.merkle_root
    rw [hdata2, List.drop_left' hplen]

/-- C6 witness (amended): for the concrete appended 96-byte block, the
first 32 bytes are the cached last-hash, bytes 32..40 the little-endian
timestamp 0, and bytes 64..96 the content digest. -/
theorem append_block_layout_witness :
    exW96.append exData1 = .ok exW96a ∧
    exW96a.file.contents = exW96.file.contents ++
      (exW96.last_hash ++ exData1) ∧
    (exW96.last_hash ++ exData1).take DIGEST_SIZE = exW96.last_hash ∧
    ((exW96.last_hash ++ exData1).drop DIGEST_SIZE).take 8 =
      toLe 8 (i64Bits 0) ∧
    (exW96.last_hash ++ exData1).drop 64 = List.replicate 32 1 := by
  have h := append_block_layout exW96 exW96a
    ⟨0, 124, 1, 4, List.replicate 32 1⟩ (List.replicate 64 0) exData1
    (by decide) (by decide) (by decide)
  exact ⟨by decide, h.1, h.2.1, h.2.2.1, h.2.2.2⟩

/-! ## Claim C9 -/

theorem i64_roundtrip (t : Int) (h1 : -9223372036854775808 ≤ t)
    (h2 : t < 9223372036854775808) : i64OfBits (i64Bits t) = t := by
  unfold i64Bits i64OfBits
  split <;> omega

theorem i64Bits_lt (t : Int) : i64Bits t < 18446744073709551616 := by
  unfold i64Bits
  omega

theorem fromLe_toLe8 (v : Nat) (h : v < 18446744073709551616) :
    fromLe (toLe 8 v) = v := by
  refine fromLe_toLe_of_lt 8 v ?_
  have h8 : (256 : Nat) ^ 8 = 18446744073709551616 := by norm_num
  omega

/-- C9: serializing a `Block` whose fields hold valid values (`i64`
timestamp, `u64` integers, 32-byte content digest) into a 64-byte buffer
and deserializing the result yields the original block:
`deserialize(serialize(B)) = B`. -/
theorem serialize_roundtrip (B : Block) (buf out : List Nat)
    (ht1 : -9223372036854775808 ≤ B.timestamp)
    (ht2 : B.timestamp < 9223372036854775808)
    (hu : B.user_id < 18446744073709551616)
    (hv : B.version < 18446744073709551616)
    (hd : B.data_size < 18446744073709551616)
    (hmr : B.merkle_root.length = 32)
    (hser : B.serialize buf = .ok out) :
    Block.deserialize out = .ok B := by
  have hdata : out = toLe 8 (i64Bits B.timestamp) ++ (toLe 8 B.user_id ++
      (toLe 8 B.version ++ (toLe 8 B.data_size ++ B.merkle_root))) := by
    by_cases hb : buf.length = PAYLOAD_SIZE
    · rw [Block.serialize, if_neg (not_not_intro hb)] at hser
      exact (Except.ok.inj hser).symm
    · rw [Block.serialize, if_pos hb] at hser
      exact Except.noConfusion hser
  subst hdata
  have hP : PAYLOAD_SIZE = 64 := rfl
  have hlen : (toLe 8 (i64Bits B.timestamp) ++ (toLe 8 B.user_id ++
      (toLe 8 B.version ++ (toLe 8 B.data_size ++ B.merkle_root)))).length =
      PAYLOAD_SIZE := by
    simp [toLe_length, hmr, hP]
  rw [Block.deserialize, if_neg (not_not_intro hlen)]
  have e1 : (toLe 8 (i64Bits B.timestamp) ++ (toLe 8 B.user_id ++
      (toLe 8 B.version ++ (toLe 8 B.data_size ++ B.merkle_root)))).take 8 =
      toLe 8 (i64Bits B.timestamp) := by
    rw [List.take_append_of_le_length (by simp [toLe_length]),
      List.take_of_length_le (by simp [toLe_length])]
  have d8 : (toLe 8 (i64Bits B.timestamp) ++ (toLe 8 B.user_id ++
      (toLe 8 B.version ++ (toLe 8 B.data_size ++ B.merkle_root)))).drop 8 =
      toLe 8 B.user_id ++ (toLe 8 B.version ++
        (toLe 8 B.data_size ++ B.merkle_root)) :=
    List.drop_left' (toLe_length 8 _)
  have d16 : (toLe 8 (i64Bits B.timestamp) ++ (toLe 8 B.user_id ++
      (toLe 8 B.version ++ (toLe 8 B.data_size ++ B.merkle_root)))).drop 16 =
      toLe 8 B.version ++ (toLe 8 B.data_size ++ B.merkle_root) := by
    have h16 : (16 : Nat) = (toLe 8 (i64Bits B.timestamp)).length + 8 := by
      simp [toLe_length]
    rw [h16, List.drop_append]
    exact List.drop_left' (toLe_length 8 _)
  have d24 : (toLe 8 (i64Bits B.timestamp) ++ (toLe 8 B.user_id ++
      (toLe 8 B.version ++ (toLe 8 B.data_size ++ B.merkle_root)))).drop 24 =
      toLe 8 B.data_size ++ B.merkle_root := by
    have h24 : (24 : Nat) = (toLe 8 (i64Bits B.timestamp)).length + 16 := by
      simp [toLe_length]
    rw [h24, List.drop_append]
    have h16 : (16 : Nat) = (toLe 8 B.user_id).length + 8 := by
      simp [toLe_length]
    rw [h16, List.drop_append]
    exact List.drop_left' (toLe_length 8 _)
  have d32 : (toLe 8 (i64Bits B.timestamp) ++ (toLe 8 B.user_id ++
      (toLe 8 B.version ++ (toLe 8 B.data_size ++ B.merkle_root)))).drop 32 =
      B.merkle_root := by
    have h32 : (32 : Nat) = (toLe 8 (i64Bits B.timestamp)).length + 24 := by
      simp [toLe_length]
    rw [h32, List.drop_append]
    have h24 : (24 : Nat) = (toLe 8 B.user_id).length + 16 := by
      simp [toLe_length]
    rw [h24, List.drop_append]
    have h16 : (16 : Nat) = (toLe 8 B.version).length + 8 := by
      simp [toLe_length]
    rw [h16, List.drop_append]
    exact List.drop_left' (toLe_length 8 _)
  have t8 : (toLe 8 B.user_id ++ (toLe 8 B.version ++
      (toLe 8 B.data_size ++ B.merkle_root))).take 8 = toLe 8 B.user_id := by
    rw [List.take_append_of_le_length (by simp [toLe_length]),
      List.take_of_length_le (by simp [toLe_length])]
  have t16 : (toLe 8 B.version ++ (toLe 8 B.data_size ++
      B.merkle_root)).take 8 = toLe 8 B.version := by
    rw [List.take_append_of_le_length (by simp [toLe_length]),
      List.take_of_length_le (by simp [toLe_length])]
  have t24 : (toLe 8 B.data_size ++ B.merkle_root).take 8 =
      toLe 8 B.data_size := by
    rw [List.take_append_of_le_length (by simp [toLe_length]),
      List.take_of_length_le (by simp [toLe_length])]
  rw [e1, d8, d16, d24, d32, t8, t16, t24,
    List.take_of_length_le (by omega),
    fromLe_toLe8 _ (i64Bits_lt B.timestamp), i64_roundtrip B.timestamp ht1 ht2,
    fromLe_toLe8 _ hu, fromLe_toLe8 _ hv, fromLe_toLe8 _ hd]

/-- C9 witness: the concrete block with timestamp `-5` serializes into 64
bytes and deserializes back to itself. -/
theorem serialize_roundtrip_witness :
    Block.serialize exBlock (List.replicate 64 0) = .ok exBlockBytes ∧
    Block.deserialize exBlockBytes = .ok exBlock :=
  ⟨by decide,
    serialize_roundtrip exBlock (List.replicate 64 0) exBlockBytes
      (by decide) (by decide) (by decide) (by decide) (by decide) (by decide)
      (by decide)⟩

end BC
